import Mathlib

/-
Shallow embedding of `src/main.py` (hddtvn): a scraper that extracts a table
of tax-registered organizations from an HTML page, merges it into a persisted
keyed store, and gates the whole run on a source-date comparison.

HTML documents are embedded post-parse: a document is the list of its `<p>`
elements (with their `dir` attribute and extracted text) and its `<table>`
elements (rows of `<td>` cells, each cell carrying its stripped text and the
`href` of its first anchor when one exists).  The regular expressions
`TAX_ID_PATTERN`, `CLEAN_NAME_PATTERN` and `DATE_PATTERN` are embedded as
explicit matchers over `List Char` reproducing Python's leftmost search with
ordered alternation and greedy quantifiers (character classes restricted to
ASCII).  Python `dict`s are embedded as association lists, the file system as
an association list from path to content.
-/

/-- TaxRecord mirrors the `TaxRecord` TypedDict of `main.py`: all five fields
are always present and are strings. -/
structure TaxRecord where
  stt : String
  ten_to_chuc : String
  mst : String
  dia_chi : String
  trang_thong_tin : String
deriving DecidableEq, Repr

/-- Characters matched by Python's `\s` (ASCII range): space, tab, newline,
carriage return, vertical tab, form feed. -/
def isSpaceCh (c : Char) : Bool :=
  c = ' ' || c = '\t' || c = '\n' || c = '\r' || c = Char.ofNat 11 || c = Char.ofNat 12

/-- Characters matched by the class `[\s:.]` used in the tax-id patterns. -/
def isSepCh (c : Char) : Bool :=
  isSpaceCh c || c = ':' || c = '.'

/-- Python `str.strip()`: drop leading and trailing whitespace. -/
def pyStrip (s : String) : String :=
  String.mk (((s.data.dropWhile isSpaceCh).reverse.dropWhile isSpaceCh).reverse)

/-- Numeric value of an ASCII digit character. -/
def digitVal (c : Char) : Nat := c.toNat - 48

/-- Digits of an integer literal after the first digit, allowing single
underscores between digits as Python's `int` does. -/
def parseDigitsU : Nat → List Char → Option Nat
  | acc, [] => some acc
  | acc, '_' :: c :: rest =>
      if c.isDigit then parseDigitsU (10 * acc + digitVal c) rest else none
  | _, ['_'] => none
  | acc, c :: rest =>
      if c.isDigit then parseDigitsU (10 * acc + digitVal c) rest else none

/-- Unsigned part of a Python integer literal: at least one digit, then
digits with optional single underscores between them. -/
def parseStartU : List Char → Option Nat
  | c :: rest => if c.isDigit then parseDigitsU (digitVal c) rest else none
  | [] => none

/-- Python `int(s)` on a string (ASCII digits): strips whitespace, accepts an
optional sign, then digits with single underscores between digits; `none`
models the `ValueError` raised on anything else. -/
def pyInt (s : String) : Option Int :=
  let l := ((s.data.dropWhile isSpaceCh).reverse.dropWhile isSpaceCh).reverse
  match l with
  | '-' :: rest => (parseStartU rest).map (fun n => -(n : Int))
  | '+' :: rest => (parseStartU rest).map (fun n => (n : Int))
  | _ => (parseStartU l).map (fun n => (n : Int))

/-
DATE_PATTERN = (\d{2}/\d{2})\s*/?\s*(\d{4})

At a given start position the match is forced: two digits, a slash, two
digits (group 1), then a maximal run of whitespace, one optional slash, a
maximal run of whitespace, and four digits (group 2); the character classes
of adjacent quantifiers are disjoint, so Python's greedy backtracking never
changes the outcome.
-/

/-- Middle part `\s*/?\s*` of `DATE_PATTERN`: skip a maximal whitespace run,
one optional slash, and another maximal whitespace run. -/
def dateSlashSkip (rest : List Char) : List Char :=
  match rest.dropWhile isSpaceCh with
  | '/' :: r => r.dropWhile isSpaceCh
  | l1 => l1

/-- Trailing group `(\d{4})` of `DATE_PATTERN`: four digits at the head of
the input. -/
def dateYear : List Char → Option String
  | y1 :: y2 :: y3 :: y4 :: _ =>
      if y1.isDigit && y2.isDigit && y3.isDigit && y4.isDigit then
        some (String.mk [y1, y2, y3, y4])
      else none
  | _ => none

/-- Attempt to match `DATE_PATTERN` anchored at the head of the list,
returning (group 1, group 2) on success. -/
def dateMatchAt : List Char → Option (String × String)
  | a :: b :: '/' :: c :: d :: rest =>
      if a.isDigit && b.isDigit && c.isDigit && d.isDigit then
        (dateYear (dateSlashSkip rest)).map
          (fun ys => (String.mk [a, b, '/', c, d], ys))
      else none
  | _ => none

/-- Python `DATE_PATTERN.search`: leftmost match wins. -/
def dateSearch : List Char → Option (String × String)
  | [] => none
  | c :: rest =>
      match dateMatchAt (c :: rest) with
      | some r => some r
      | none => dateSearch rest

/-- Case folding for the `(?i)` flag, ASCII scope. -/
def foldCI (c : Char) : Char := c.toLower

/-- Consume a literal case-insensitively from the head of the input,
returning the remainder. -/
def dropLitCI : List Char → List Char → Option (List Char)
  | [], rest => some rest
  | _ :: _, [] => none
  | p :: ps, c :: cs => if foldCI p = foldCI c then dropLitCI ps cs else none

/-
TAX_ID_PATTERN = (?i)(?:MST|MS|MST số)[\s:.]*(\d+)

The alternation is tried in source order; after a literal the separator run
and the digit run are maximal and forced (the classes are disjoint).
-/

/-- Attempt one alternation branch of `TAX_ID_PATTERN` at the head of the
input: the literal, then `[\s:.]*`, then one or more digits (group 1). -/
def taxBranch (lit : List Char) (l : List Char) : Option String :=
  match dropLitCI lit l with
  | none => none
  | some rest =>
      if (rest.dropWhile isSepCh).takeWhile Char.isDigit = [] then none
      else some (String.mk ((rest.dropWhile isSepCh).takeWhile Char.isDigit))

/-- Attempt `TAX_ID_PATTERN` anchored at the head of the input, branches in
the pattern's order. -/
def taxTryAt (l : List Char) : Option String :=
  match taxBranch "MST".data l with
  | some s => some s
  | none =>
      match taxBranch "MS".data l with
      | some s => some s
      | none => taxBranch "MST số".data l

/-- Python `TAX_ID_PATTERN.search`: leftmost match wins; returns group 1. -/
def taxSearch : List Char → Option String
  | [] => none
  | c :: rest =>
      match taxTryAt (c :: rest) with
      | some s => some s
      | none => taxSearch rest

/-
CLEAN_NAME_PATTERN = \s*[(\[]?(?:MST|MS|MST số)[\s:.]*\d+[])]?   (IGNORECASE)

Again each quantifier is forced at a given start position: maximal leading
whitespace, one optional opening bracket, the alternation in order, maximal
separator run, maximal non-empty digit run, one optional closing bracket.
-/

/-- Attempt one alternation branch of `CLEAN_NAME_PATTERN` after the leading
whitespace and optional bracket, returning the input remainder that follows
the whole match. -/
def cleanBranch (lit : List Char) (l : List Char) : Option (List Char) :=
  match dropLitCI lit l with
  | none => none
  | some rest =>
      let rest2 := rest.dropWhile isSepCh
      if rest2.takeWhile Char.isDigit = [] then none
      else
        match rest2.dropWhile Char.isDigit with
        | c :: r => if c = ']' || c = ')' then some r else some (c :: r)
        | [] => some []

/-- Attempt `CLEAN_NAME_PATTERN` anchored at the head of the input, returning
the remainder after the matched substring. -/
def cleanMatchAt (l : List Char) : Option (List Char) :=
  let l1 := l.dropWhile isSpaceCh
  let l2 := match l1 with
    | c :: r => if c = '(' || c = '[' then r else l1
    | [] => l1
  match cleanBranch "MST".data l2 with
  | some r => some r
  | none =>
      match cleanBranch "MS".data l2 with
      | some r => some r
      | none => cleanBranch "MST số".data l2

/-- Fuelled scanner for `CLEAN_NAME_PATTERN.sub("", ·)`: at each position
remove the leftmost match and continue after it, otherwise keep the
character and advance.  Every match consumes at least one character, so fuel
equal to the input length is always enough. -/
def cleanSubF : Nat → List Char → List Char
  | 0, l => l
  | _ + 1, [] => []
  | fuel + 1, c :: rest =>
      match cleanMatchAt (c :: rest) with
      | some r => cleanSubF fuel r
      | none => c :: cleanSubF fuel rest

/-- Python `CLEAN_NAME_PATTERN.sub("", s)` over the character list. -/
def cleanSub (l : List Char) : List Char := cleanSubF l.length l

/-- Paragraph element: its `dir` attribute (if any) and its
`get_text(strip=True)` text. -/
structure Para where
  dir : Option String
  text : String
deriving DecidableEq, Repr

/-- Table cell (`<td>`): its `get_text(strip=True)` text, and — when the cell
contains an `<a>` tag — the anchor's `href` attribute (the empty string when
the attribute is missing, mirroring `get("href", "")`). -/
structure Cell where
  text : String
  anchor : Option String
deriving DecidableEq, Repr

/-- Table row: whether it contains a `<th>` element, and its `<td>` cells. -/
structure Row where
  hasTh : Bool
  cells : List Cell
deriving DecidableEq, Repr

/-- Table element: whether its class list contains `ta_border`, and its
rows. -/
structure HtmlTable where
  isTaBorder : Bool
  rows : List Row
deriving DecidableEq, Repr

/-- Parsed HTML document: its `<p>` elements and its `<table>` elements, in
document order. -/
structure HtmlDoc where
  paras : List Para
  tables : List HtmlTable
deriving DecidableEq, Repr

/-- Table selection of `extract_tax_records`: `soup.find("table",
class_="ta_border")`, falling back to the first table in the document. -/
def findDataTable (ts : List HtmlTable) : Option HtmlTable :=
  match ts.find? (fun t => t.isTaBorder) with
  | some t => some t
  | none => ts.head?

/-- Link cell handling: the anchor's `href` (stripped) when an `<a>` tag
exists, else the cell's plain text. -/
def rowLink (c3 : Cell) : String :=
  match c3.anchor with
  | some h => pyStrip h
  | none => c3.text

/-- Row handler of `extract_tax_records`: require at least 4 cells, search
the name cell for `TAX_ID_PATTERN` (no match drops the row), strip the
matched annotation from the name, and take the link cell's value. -/
def rowToRecord (row : Row) : Option TaxRecord :=
  match row.cells with
  | c0 :: c1 :: c2 :: c3 :: _ =>
      match taxSearch c1.text.data with
      | none => none
      | some mst =>
          some { stt := c0.text
                 ten_to_chuc := String.mk (cleanSub c1.text.data)
                 mst := mst
                 dia_chi := c2.text
                 trang_thong_tin := rowLink c3 }
  | _ => none

/-- Header handling of `extract_tax_records`: when the first row contains a
`<th>` cell, discard it. -/
def headerDrop : List Row → List Row
  | r :: rs => if r.hasTh then rs else r :: rs
  | [] => []

/-- GDTScraper.extract_tax_records: select the data table, drop a leading
header row, and convert the remaining rows, silently skipping unparseable
ones. -/
def extract_tax_records (doc : HtmlDoc) : List TaxRecord :=
  match findDataTable doc.tables with
  | none => []
  | some t => (headerDrop t.rows).filterMap rowToRecord

/-- GDTScraper.extract_source_date: find the first `<p dir="ltr">`, search
its text with `DATE_PATTERN`, and return `f"{group(1)}/{group(2)}"`. -/
def extract_source_date (doc : HtmlDoc) : Option String :=
  match doc.paras.find? (fun p => p.dir == some "ltr") with
  | none => none
  | some p =>
      match dateSearch p.text.data with
      | none => none
      | some (dm, y) => some (dm ++ "/" ++ y)

/-
Store and reconciliation (DataManager).  A Python dict is embedded as an
association list whose keys are unique; lookup is first-match, assignment to
an existing key rewrites its entry in place, assignment to a fresh key
appends at the end (dicts preserve insertion order).
-/

/-- RecordStore: association list from `mst` to record. -/
abbrev Store := List (String × TaxRecord)

/-- Dict lookup, first match. -/
def storeFind : Store → String → Option TaxRecord
  | [], _ => none
  | (k, v) :: rest, key => if k = key then some v else storeFind rest key

/-- Dict assignment to a present key: rewrite its entry in place. -/
def storeSet (st : Store) (key : String) (v : TaxRecord) : Store :=
  st.map (fun p => if p.1 = key then (key, v) else p)

/-- Counters logged by `upsert_records`. -/
structure SyncStats where
  newCount : Nat
  updateCount : Nat
  unchangedCount : Nat
deriving DecidableEq, Repr

/-- One iteration of the `upsert_records` loop.  `existing[mst].update(item)`
overwrites every field because a `TaxRecord` is always fully populated, so it
is embedded as rewriting the entry to `item`. -/
def upsertStep (acc : Store × SyncStats) (item : TaxRecord) : Store × SyncStats :=
  match storeFind acc.1 item.mst with
  | none =>
      (acc.1 ++ [(item.mst, item)],
       { acc.2 with newCount := acc.2.newCount + 1 })
  | some r =>
      if r = item then
        (acc.1, { acc.2 with unchangedCount := acc.2.unchangedCount + 1 })
      else
        (storeSet acc.1 item.mst item,
         { acc.2 with updateCount := acc.2.updateCount + 1 })

/-- DataManager.upsert_records: fold the incoming records into the existing
store, counting new / updated / unchanged.  The Python function returns
`list(existing.values())`, i.e. the first component's values. -/
def upsert_records (existing : Store) (new_items : List TaxRecord) : Store × SyncStats :=
  new_items.foldl upsertStep (existing, ⟨0, 0, 0⟩)

/-- Sort key of `save_database`: `int(x.get("stt", 999999))` with
`ValueError` mapped to the sentinel `999999`. -/
def sortKey (x : TaxRecord) : Int :=
  match pyInt x.stt with
  | some n => n
  | none => 999999

/-- Ordering produced by `data.sort(key=sort_key)`: Python's sort is stable
and ascending, which insertion sort with non-strict comparison reproduces
extensionally. -/
def save_order (data : List TaxRecord) : List TaxRecord :=
  List.insertionSort (fun a b => sortKey a ≤ sortKey b) data

/-- Lowercase hexadecimal digit, as Python's json module emits. -/
def hexDigit (n : Nat) : Char :=
  if n < 10 then Char.ofNat (48 + n) else Char.ofNat (87 + n)

/-- JSON escaping of one character with `ensure_ascii=False`: only the
quote, the backslash and control characters are escaped. -/
def escCh (c : Char) : List Char :=
  if c = '"' then ['\\', '"']
  else if c = '\\' then ['\\', '\\']
  else if c = '\n' then ['\\', 'n']
  else if c = '\r' then ['\\', 'r']
  else if c = '\t' then ['\\', 't']
  else if c = Char.ofNat 8 then ['\\', 'b']
  else if c = Char.ofNat 12 then ['\\', 'f']
  else if c.toNat < 32 then
    ['\\', 'u', '0', '0', hexDigit (c.toNat / 16), hexDigit (c.toNat % 16)]
  else [c]

/-- JSON string escaping. -/
def jsonEscape (s : String) : String :=
  String.mk (s.data.foldr (fun c acc => escCh c ++ acc) [])

/-- Quoted JSON string. -/
def jsonStr (s : String) : String := "\"" ++ jsonEscape s ++ "\""

/-- One `"key": "value"` line at the inner indentation level. -/
def renderField (k v : String) : String :=
  "        " ++ jsonStr k ++ ": " ++ jsonStr v

/-- One record object as `json.dump(..., indent=4)` lays it out, keys in
`TaxRecord` construction order. -/
def renderRecord (r : TaxRecord) : String :=
  "    \x7b\n" ++
    String.intercalate ",\n"
      [renderField "stt" r.stt,
       renderField "ten_to_chuc" r.ten_to_chuc,
       renderField "mst" r.mst,
       renderField "dia_chi" r.dia_chi,
       renderField "trang_thong_tin" r.trang_thong_tin] ++
  "\n    \x7d"

/-- The serialized record list: `json.dump(data, f, indent=4,
ensure_ascii=False)`. -/
def renderJson (l : List TaxRecord) : String :=
  match l with
  | [] => "[]"
  | _ => "[\n" ++ String.intercalate ",\n" (l.map renderRecord) ++ "\n]"

/-- File system: association list from path to file content; a present path
appears once from the point of view of `fsGet`. -/
abbrev FS := List (String × String)

/-- Content of a path, `none` when the file does not exist. -/
def fsGet : FS → String → Option String
  | [], _ => none
  | (p, c) :: rest, q => if p = q then some c else fsGet rest q

/-- Delete a path (`os.remove`, also the implicit delete inside a rename
over an existing destination). -/
def fsRemove (fs : FS) (p : String) : FS :=
  fs.filter (fun q => !(q.1 = p))

/-- Create or overwrite a path with the given content. -/
def fsSet (fs : FS) (p c : String) : FS :=
  (p, c) :: fsRemove fs p

/-- Failure injected into `save_database`'s try block: an exception while
opening or writing the temporary file (which may have received a prefix of
the content, or not have been created at all), or an exception during the
`shutil.move` rename. -/
inductive SaveFailure
  | duringWrite (written : Option String)
  | duringMove
deriving DecidableEq, Repr

/-- DataManager.save_database over the embedded file system: sort, write the
serialization to `path + ".tmp"`, rename over `path`; on an exception,
remove the temporary file if it exists and leave the destination alone. -/
def save_database_fs (failure : Option SaveFailure) (data : List TaxRecord)
    (path : String) (fs : FS) : FS :=
  let content := renderJson (save_order data)
  let tmp := path ++ ".tmp"
  match failure with
  | none => fsSet (fsRemove (fsSet fs tmp content) tmp) path content
  | some (.duringWrite w) =>
      let fs1 := match w with
        | none => fs
        | some c => fsSet fs tmp c
      fsRemove fs1 tmp
  | some .duringMove => fsRemove (fsSet fs tmp content) tmp

/-- Outcome of one read of the sync-date file. -/
inductive FileRead
  | missing
  | unreadable
  | content (s : String)
deriving DecidableEq, Repr

/-- DataManager.get_last_sync_date: `none` when the file is missing or the
read raises; otherwise the stripped content, with the empty string mapped to
`none` (`return date_str if date_str else None`). -/
def get_last_sync_date : FileRead → Option String
  | .missing => none
  | .unreadable => none
  | .content s =>
      let t := pyStrip s
      if t = "" then none else some t

/-- Sync gate of `main` under the spec's name: proceed exactly when
`last_sync_date == source_date` is false. -/
def shouldProceed (sourceDate : String) (lastSync : Option String) : Bool :=
  !(lastSync == some sourceDate)

/-- How one run of `main` ends, after the fetch succeeded or failed. -/
inductive RunOutcome
  | abortNoHtml
  | abortNoDate
  | upToDate
  | noRecords
  | saved (out : List TaxRecord) (newSyncDate : String)
deriving DecidableEq, Repr

/-- The `main` pipeline as a function of the fetched document, the last
recorded sync date and the loaded store: abort without HTML, abort when the
source date is missing, stop when the dates are equal, stop when no records
were extracted, otherwise merge, sort and save, then record the source
date. -/
def runMain (html : Option HtmlDoc) (lastSync : Option String) (db0 : Store) :
    RunOutcome :=
  match html with
  | none => .abortNoHtml
  | some doc =>
      match extract_source_date doc with
      | none => .abortNoDate
      | some sourceDate =>
          if lastSync = some sourceDate then .upToDate
          else
            let recs := extract_tax_records doc
            if recs = [] then .noRecords
            else
              .saved (save_order ((upsert_records db0 recs).1.map Prod.snd))
                sourceDate

/-- Shape of the string actually returned by `extract_source_date`:
`DD/MM/YYYY`, i.e. two digits, a slash, two digits, a slash, four digits. -/
def isDDMMYYYY (s : String) : Bool :=
  match s.data with
  | [a, b, s1, c, d, s2, e, f, g, h] =>
      a.isDigit && b.isDigit && s1 = '/' && c.isDigit && d.isDigit &&
      s2 = '/' && e.isDigit && f.isDigit && g.isDigit && h.isDigit
  | _ => false

/-- Modelled from the spec's words, for comparison only: "a normalized
month/year token of the form MM/YYYY", i.e. two digits, a slash, four
digits. -/
def spec_isMonthYearToken (s : String) : Bool :=
  match s.data with
  | [m1, m2, s1, y1, y2, y3, y4] =>
      m1.isDigit && m2.isDigit && s1 = '/' &&
      y1.isDigit && y2.isDigit && y3.isDigit && y4.isDigit
  | _ => false

/-- Document whose date marker carries the full date `05/06/2024`. -/
def c1doc : HtmlDoc := ⟨[⟨some "ltr", "Updated 05/06/2024"⟩], []⟩

/-- Document with a date marker, used to instantiate the C1 theorem. -/
def c1doc2 : HtmlDoc := ⟨[⟨some "ltr", "ngay 31/12/2025"⟩], []⟩

/-- Document with no left-to-right paragraph at all. -/
def c1docEmpty : HtmlDoc := ⟨[⟨none, "31/12/2025"⟩], []⟩

/-- Existing record of the C2 merge example (address "A"). -/
def c2recA : TaxRecord := ⟨"1", "Org", "1", "A", "L"⟩

/-- Incoming record of the C2 merge example (address "B"). -/
def c2recB : TaxRecord := ⟨"1", "Org", "1", "B", "L"⟩

/-- Existing store of the C2 merge example. -/
def c2store : Store := [("1", c2recA)]

/-- First of two incoming records sharing taxId "7" but differing in
address. -/
def c3r1 : TaxRecord := ⟨"1", "O", "7", "A", "L"⟩

/-- Second of two incoming records sharing taxId "7". -/
def c3r2 : TaxRecord := ⟨"1", "O", "7", "B", "L"⟩

/-- Record with a distinct taxId, for the C3 witness. -/
def c3s1 : TaxRecord := ⟨"1", "O", "8", "A", "L"⟩

/-- Second record with a distinct taxId, for the C3 witness. -/
def c3s2 : TaxRecord := ⟨"2", "O", "9", "B", "L"⟩

/-- Record with sequence number "3". -/
def c4r3 : TaxRecord := ⟨"3", "O", "3", "A", "L"⟩

/-- Record with sequence number "1". -/
def c4r1 : TaxRecord := ⟨"1", "O", "1", "A", "L"⟩

/-- Record with non-numeric sequence number "x". -/
def c4rx : TaxRecord := ⟨"x", "O", "4", "A", "L"⟩

/-- Record with sequence number "2". -/
def c4r2 : TaxRecord := ⟨"2", "O", "2", "A", "L"⟩

/-- Record whose numeric sequence number exceeds the sentinel 999999. -/
def c4big : TaxRecord := ⟨"1000000", "O", "5", "A", "L"⟩

/-- Record with a non-numeric sequence number, sorted at the sentinel. -/
def c4nonnum : TaxRecord := ⟨"x", "O", "6", "A", "L"⟩

/-- Row whose name cell contains a tax id. -/
def c5rowGood : Row :=
  ⟨false, [⟨"1", none⟩, ⟨"Alpha MST: 11", none⟩, ⟨"Addr", none⟩, ⟨"t", none⟩]⟩

/-- Row with four cells but no parseable tax id in the name cell. -/
def c5rowBad : Row :=
  ⟨false, [⟨"2", none⟩, ⟨"Beta has no id", none⟩, ⟨"Addr", none⟩, ⟨"t", none⟩]⟩

/-- Document containing one table with a good and a bad row. -/
def c5doc : HtmlDoc := ⟨[], [⟨true, [c5rowGood, c5rowBad]⟩]⟩

/-- Document whose source date resolves to `01/05/2024`. -/
def c6doc : HtmlDoc := ⟨[⟨some "ltr", "01/05 2024"⟩], []⟩

/-- File system holding a previously persisted store file. -/
def c7fs : FS := [("db.json", "old-content")]

/-- Store-resident record absent from the incoming extraction. -/
def c8rec : TaxRecord := ⟨"1", "O", "5", "A", "L"⟩

/-- Existing store for the C8 witness. -/
def c8store : Store := [("5", c8rec)]

/-- First incoming record with taxId "6". -/
def c8i1 : TaxRecord := ⟨"2", "P", "6", "B", "L"⟩

/-- Second incoming record, duplicating taxId "6". -/
def c8i2 : TaxRecord := ⟨"3", "P", "6", "C", "L"⟩

/-- Document with one table row whose name cell reads
"ACME Corp (MST: 0123456789)". -/
def c9doc : HtmlDoc :=
  ⟨[], [⟨true,
    [⟨false,
      [⟨"1", none⟩,
       ⟨"ACME Corp (MST: 0123456789)", none⟩,
       ⟨"Addr", none⟩,
       ⟨"link", some "http://x"⟩]⟩]⟩]⟩

/-- Document whose source date resolves to `02/03/2024`, for C10. -/
def c10doc : HtmlDoc := ⟨[⟨some "ltr", "epoch 02/03/2024"⟩], []⟩

/-- C9: extract_tax_records on a row whose name cell reads
"ACME Corp (MST: 0123456789)" yields the record with the annotation
(including its enclosing punctuation) removed from the organization name and
the digits captured as the tax id. -/
theorem extract_name_normalization :
    extract_tax_records c9doc =
      [{ stt := "1", ten_to_chuc := "ACME Corp", mst := "0123456789",
         dia_chi := "Addr", trang_thong_tin := "http://x" }] := by
  decide

/-- C2: the merge keyed by taxId inserts and counts as new when the key is
absent, leaves the store unchanged and counts as unchanged when the stored
record equals the incoming one, and overwrites the entry with the incoming
record and counts as updated when they differ. -/
theorem upsert_merge_cases (st : Store) (item : TaxRecord) :
    (storeFind st item.mst = none →
      upsert_records st [item] = (st ++ [(item.mst, item)], ⟨1, 0, 0⟩)) ∧
    (storeFind st item.mst = some item →
      upsert_records st [item] = (st, ⟨0, 0, 1⟩)) ∧
    (∀ r : TaxRecord, storeFind st item.mst = some r → r ≠ item →
      upsert_records st [item] = (storeSet st item.mst item, ⟨0, 1, 0⟩)) := by
  refine ⟨?_, ?_, ?_⟩
  · intro h
    simp [upsert_records, upsertStep, h]
  · intro h
    simp [upsert_records, upsertStep, h]
  · intro r h hne
    simp [upsert_records, upsertStep, h, hne]

/-- Witness for C2: merging incoming {taxId "1", address "B"} over existing
{taxId "1", address "A"} rewrites the entry to address "B" with exactly one
update counted. -/
theorem upsert_merge_cases_witness :
    upsert_records c2store [c2recB] = ([("1", c2recB)], ⟨0, 1, 0⟩) :=
  ((upsert_merge_cases c2store c2recB).2.2 c2recA (by decide) (by decide)).trans
    (by decide)

/-- C6: the sync gate is a pure equality comparison — shouldProceed is false
on equal normalized dates and true on differing ones; when the last recorded
sync date equals the source date the run ends at `upToDate` for every store
(the store is neither read nor written), and when they differ the run
proceeds to extraction and ends in `noRecords` or `saved`. -/
theorem sync_gate_equality :
    shouldProceed "05/2024" (some "05/2024") = false ∧
    shouldProceed "06/2024" (some "05/2024") = true ∧
    (∀ (doc : HtmlDoc) (d : String) (last : Option String) (db : Store),
      extract_source_date doc = some d → last = some d →
      runMain (some doc) last db = .upToDate) ∧
    (∀ (doc : HtmlDoc) (d : String) (last : Option String) (db : Store),
      extract_source_date doc = some d → last ≠ some d →
      runMain (some doc) last db = .noRecords ∨
        ∃ out sd, runMain (some doc) last db = .saved out sd) := by
  refine ⟨by decide, by decide, ?_, ?_⟩
  · intro doc d last db h1 h2
    simp [runMain, h1, h2]
  · intro doc d last db h1 h2
    simp only [runMain, h1, if_neg h2]
    by_cases hrec : extract_tax_records doc = []
    · exact Or.inl (by simp [hrec])
    · exact Or.inr
        ⟨save_order ((upsert_records db (extract_tax_records doc)).1.map
            Prod.snd), d, by rw [if_neg hrec]⟩

/-- Witness for C6: on a document dated 01/05/2024, a matching last sync
date stops the run at `upToDate`, and a missing one lets it proceed. -/
theorem sync_gate_equality_witness :
    runMain (some c6doc) (some "01/05/2024") [] = .upToDate ∧
    (runMain (some c6doc) none [] = .noRecords ∨
      ∃ out sd, runMain (some c6doc) none [] = .saved out sd) :=
  ⟨sync_gate_equality.2.2.1 c6doc "01/05/2024" (some "01/05/2024") []
      (by decide) rfl,
   sync_gate_equality.2.2.2 c6doc "01/05/2024" none [] (by decide) (by decide)⟩

/-- C10: get_last_sync_date returns none when the file is missing, when the
read raises, and when the content is empty or whitespace-only; in all those
cases the gate compares none against the present source date and the run
proceeds past `upToDate`. -/
theorem get_last_sync_date_none :
    get_last_sync_date .missing = none ∧
    get_last_sync_date .unreadable = none ∧
    (∀ s : String, s.data.all isSpaceCh = true →
      get_last_sync_date (.content s) = none) ∧
    (∀ (fr : FileRead) (doc : HtmlDoc) (d : String) (db : Store),
      get_last_sync_date fr = none → extract_source_date doc = some d →
      runMain (some doc) (get_last_sync_date fr) db ≠ .upToDate) := by
  refine ⟨rfl, rfl, ?_, ?_⟩
  · intro s hs
    have hnil : s.data.dropWhile isSpaceCh = [] := by
      rw [List.dropWhile_eq_nil_iff]
      intro x hx
      exact (List.all_eq_true.mp hs x hx)
    simp [get_last_sync_date, pyStrip, hnil]
  · intro fr doc d db h1 h2
    rw [h1]
    simp only [runMain, h2]
    have : (none : Option String) ≠ some d := by simp
    rw [if_neg this]
    by_cases hrec : extract_tax_records doc = [] <;> simp [hrec]

/-- Witness for C10: a whitespace-only sync-date file reads as none, and the
run over a dated document then proceeds. -/
theorem get_last_sync_date_none_witness :
    get_last_sync_date (.content "  ") = none ∧
    runMain (some c10doc) (get_last_sync_date (.content "  ")) [] ≠
      .upToDate :=
  ⟨get_last_sync_date_none.2.2.1 "  " (by decide),
   get_last_sync_date_none.2.2.2 (.content "  ") c10doc "02/03/2024" []
     (get_last_sync_date_none.2.2.1 "  " (by decide)) (by decide)⟩

/-- Helper: a successful `dateYear` match is four digit characters. -/
theorem dateYear_shape {l : List Char} {ys : String} (h : dateYear l = some ys) :
    ∃ y1 y2 y3 y4 : Char, ys.data = [y1, y2, y3, y4] ∧
      y1.isDigit = true ∧ y2.isDigit = true ∧ y3.isDigit = true ∧
      y4.isDigit = true := by
  unfold dateYear at h
  split at h
  next y1 y2 y3 y4 tail =>
    split at h
    next hy =>
      simp only [Bool.and_eq_true] at hy
      obtain ⟨⟨⟨hy1, hy2⟩, hy3⟩, hy4⟩ := hy
      have h' := Option.some.inj h
      subst h'
      exact ⟨y1, y2, y3, y4, rfl, hy1, hy2, hy3, hy4⟩
    next => exact absurd h (by simp)
  next => exact absurd h (by simp)

/-- Helper: a successful `dateMatchAt` yields a `DD/MM/YYYY`-shaped string
once the two groups are joined by a slash. -/
theorem dateMatchAt_shape {l : List Char} {dm y : String}
    (h : dateMatchAt l = some (dm, y)) : isDDMMYYYY (dm ++ "/" ++ y) = true := by
  unfold dateMatchAt at h
  split at h
  next a b c d rest =>
    split at h
    next hdig =>
      cases hy : dateYear (dateSlashSkip rest) with
      | none => rw [hy] at h; cases h
      | some ys =>
          rw [hy] at h
          simp only [Option.map_some'] at h
          have h' := Option.some.inj h
          have hdm := congrArg Prod.fst h'
          have hyy := congrArg Prod.snd h'
          simp only at hdm hyy
          subst hdm hyy
          obtain ⟨y1, y2, y3, y4, hysd, hy1, hy2, hy3, hy4⟩ := dateYear_shape hy
          simp only [Bool.and_eq_true] at hdig
          obtain ⟨⟨⟨ha, hb⟩, hc⟩, hd2⟩ := hdig
          have hdata : (String.mk [a, b, '/', c, d] ++ "/" ++ ys).data =
              [a, b, '/', c, d, '/', y1, y2, y3, y4] := by
            simp [String.data_append, hysd]
          simp [isDDMMYYYY, hdata, ha, hb, hc, hd2, hy1, hy2, hy3, hy4]
    next => exact absurd h (by simp)
  next => exact absurd h (by simp)

/-- Helper: every successful `dateSearch` yields a `DD/MM/YYYY`-shaped
joined string. -/
theorem dateSearch_shape {l : List Char} {dm y : String}
    (h : dateSearch l = some (dm, y)) : isDDMMYYYY (dm ++ "/" ++ y) = true := by
  induction l with
  | nil => cases h
  | cons c rest ih =>
      unfold dateSearch at h
      cases hm : dateMatchAt (c :: rest) with
      | some r =>
          rw [hm] at h
          have hr := Option.some.inj h
          rw [hr] at hm
          exact dateMatchAt_shape hm
      | none => rw [hm] at h; exact ih h

/-- C1 (amended): extract_source_date returns none when the left-to-right
marker paragraph or the date pattern is absent, and on success returns the
full matched date as `DD/MM/YYYY` — the day component is retained, not
discarded. -/
theorem extract_source_date_shape :
    (∀ doc : HtmlDoc, doc.paras.find? (fun p => p.dir == some "ltr") = none →
      extract_source_date doc = none) ∧
    (∀ (doc : HtmlDoc) (p : Para),
      doc.paras.find? (fun p => p.dir == some "ltr") = some p →
      dateSearch p.text.data = none → extract_source_date doc = none) ∧
    (∀ (doc : HtmlDoc) (s : String), extract_source_date doc = some s →
      isDDMMYYYY s = true) := by
  refine ⟨?_, ?_, ?_⟩
  · intro doc h
    simp [extract_source_date, h]
  · intro doc p h1 h2
    simp [extract_source_date, h1, h2]
  · intro doc s h
    unfold extract_source_date at h
    split at h
    · exact absurd h (by simp)
    · split at h
      · exact absurd h (by simp)
      · next dm y hd =>
          have hs := Option.some.inj h
          subst hs
          exact dateSearch_shape hd

/-- Counterexample to C1 as stated: on a marker paragraph containing
`05/06/2024` the function returns the full `05/06/2024`, which is not a
`MM/YYYY` token and differs from the day-discarded `06/2024`. -/
theorem extract_source_date_counterexample :
    extract_source_date c1doc = some "05/06/2024" ∧
    spec_isMonthYearToken "05/06/2024" = false ∧
    "05/06/2024" ≠ "06/2024" := by decide

/-- Witness for C1 (amended): a concrete marker paragraph produces a
`DD/MM/YYYY` result, and a document without the marker produces none. -/
theorem extract_source_date_shape_witness :
    isDDMMYYYY "31/12/2025" = true ∧ extract_source_date c1docEmpty = none :=
  ⟨extract_source_date_shape.2.2 c1doc2 "31/12/2025" (by decide),
   extract_source_date_shape.1 c1docEmpty (by decide)⟩

/-- Helper: looking up a removed path yields nothing. -/
theorem fsGet_remove_self (fs : FS) (p : String) :
    fsGet (fsRemove fs p) p = none := by
  induction fs with
  | nil => rfl
  | cons q rest ih =>
      cases q with
      | mk k c =>
          by_cases hk : k = p
          · simpa [fsRemove, List.filter_cons, hk] using ih
          · simp only [fsRemove, List.filter_cons] at ih ⊢
            simp [hk, fsGet, ih]

/-- Helper: removing one path leaves every other path's content intact. -/
theorem fsGet_remove_ne (fs : FS) (p q : String) (h : p ≠ q) :
    fsGet (fsRemove fs p) q = fsGet fs q := by
  induction fs with
  | nil => rfl
  | cons e rest ih =>
      cases e with
      | mk k c =>
          by_cases hk : k = p
          · subst hk
            simp only [fsRemove, List.filter_cons] at ih ⊢
            simp [fsGet, ih, h]
          · simp only [fsRemove, List.filter_cons] at ih ⊢
            by_cases hq : k = q <;> simp [hk, hq, fsGet, ih, Ne.symm h]

/-- Helper: a freshly written path holds the written content. -/
theorem fsGet_set_self (fs : FS) (p c : String) :
    fsGet (fsSet fs p c) p = some c := by
  simp [fsSet, fsGet]

/-- Helper: writing one path leaves every other path's content intact. -/
theorem fsGet_set_ne (fs : FS) (p c : String) (q : String) (h : p ≠ q) :
    fsGet (fsSet fs p c) q = fsGet fs q := by
  simp only [fsSet, fsGet]
  rw [if_neg h]
  exact fsGet_remove_ne fs p q h

/-- Helper: a path never equals itself with ".tmp" appended. -/
theorem append_tmp_ne (p : String) : p ++ ".tmp" ≠ p := by
  intro h
  have hd : p.data ++ ".tmp".data = p.data := by
    rw [← String.data_append, h]
  have := congrArg List.length hd
  simp at this

/-- C7: on any injected failure, save_database leaves the destination's
content exactly as it was and removes the temporary file; on success the
destination holds the full serialization of the sorted records, installed by
the rename. -/
theorem save_database_atomic :
    (∀ (f : SaveFailure) (data : List TaxRecord) (path : String) (fs : FS),
      fsGet (save_database_fs (some f) data path fs) path = fsGet fs path ∧
      fsGet (save_database_fs (some f) data path fs) (path ++ ".tmp") = none) ∧
    (∀ (data : List TaxRecord) (path : String) (fs : FS),
      fsGet (save_database_fs none data path fs) path =
        some (renderJson (save_order data))) := by
  constructor
  · intro f data path fs
    have hne := append_tmp_ne path
    cases f with
    | duringWrite w =>
        cases w with
        | none =>
            exact ⟨fsGet_remove_ne fs _ path hne, fsGet_remove_self fs _⟩
        | some c =>
            constructor
            · show fsGet (fsRemove (fsSet fs (path ++ ".tmp") c) (path ++ ".tmp")) path = fsGet fs path
              rw [fsGet_remove_ne _ _ _ hne, fsGet_set_ne _ _ _ _ hne]
            · exact fsGet_remove_self _ _
    | duringMove =>
        constructor
        · show fsGet (fsRemove (fsSet fs (path ++ ".tmp") _) (path ++ ".tmp")) path = fsGet fs path
          rw [fsGet_remove_ne _ _ _ hne, fsGet_set_ne _ _ _ _ hne]
        · exact fsGet_remove_self _ _
  · intro data path fs
    exact fsGet_set_self _ _ _

/-- Witness for C7: a failure during the rename leaves the previously
persisted "db.json" byte-identical and no temporary file behind. -/
theorem save_database_atomic_witness :
    fsGet (save_database_fs (some .duringMove) [] "db.json" c7fs) "db.json" =
      fsGet c7fs "db.json" ∧
    fsGet (save_database_fs (some .duringMove) [] "db.json" c7fs)
      ("db.json" ++ ".tmp") = none :=
  save_database_atomic.1 .duringMove [] "db.json" c7fs

instance : IsTotal TaxRecord (fun a b => sortKey a ≤ sortKey b) :=
  ⟨fun a b => le_total (sortKey a) (sortKey b)⟩

instance : IsTrans TaxRecord (fun a b => sortKey a ≤ sortKey b) :=
  ⟨fun _ _ _ h1 h2 => le_trans h1 h2⟩

/-- C4 (amended): save_database orders the persisted records by the sort key
"numeric value of stt, with non-numeric stt mapped to the sentinel 999999",
ascending, as a permutation of the input; the example "3","1","x","2" comes
out as 1, 2, 3, x.  Non-numeric values therefore sort after numeric values
below the sentinel, not after every numeric value. -/
theorem save_database_sort :
    (∀ data : List TaxRecord,
      List.Sorted (fun a b => sortKey a ≤ sortKey b) (save_order data) ∧
      (save_order data).Perm data) ∧
    (∀ x : TaxRecord, pyInt x.stt = none → sortKey x = 999999) ∧
    (save_order [c4r3, c4r1, c4rx, c4r2]).map (fun r => r.stt) =
      ["1", "2", "3", "x"] := by
  refine ⟨?_, ?_, by decide⟩
  · intro data
    exact ⟨List.sorted_insertionSort _ _, List.perm_insertionSort _ _⟩
  · intro x h
    simp [sortKey, h]

/-- Counterexample to C4 as stated: "1000000" is numeric yet the non-numeric
"x" (sentinel 999999) is persisted before it, so non-numeric values do not
sort after every numeric value. -/
theorem save_database_sort_counterexample :
    pyInt "1000000" = some 1000000 ∧ pyInt "x" = none ∧
    (save_order [c4big, c4nonnum]).map (fun r => r.stt) = ["x", "1000000"] := by
  decide

/-- Witness for C4 (amended): the ordering is sorted on a concrete input and
the non-numeric key maps to the sentinel. -/
theorem save_database_sort_witness :
    List.Sorted (fun a b => sortKey a ≤ sortKey b)
      (save_order [c4big, c4nonnum]) ∧ sortKey c4nonnum = 999999 :=
  ⟨(save_database_sort.1 [c4big, c4nonnum]).1,
   save_database_sort.2.1 c4nonnum (by decide)⟩

/-- Helper: a successful tax-id branch captures a non-empty digit string. -/
theorem taxBranch_digits {lit l : List Char} {s : String}
    (h : taxBranch lit l = some s) :
    s ≠ "" ∧ s.data.all Char.isDigit = true := by
  unfold taxBranch at h
  split at h
  · exact absurd h (by simp)
  · next rest hdl =>
      split at h
      · exact absurd h (by simp)
      · next hne =>
          have hs := Option.some.inj h
          subst hs
          constructor
          · intro he
            apply hne
            simpa using congrArg String.data he
          · rw [List.all_eq_true]
            intro x hx
            exact List.mem_takeWhile_imp hx

/-- Helper: a successful `taxTryAt` captures a non-empty digit string. -/
theorem taxTryAt_digits {l : List Char} {s : String} (h : taxTryAt l = some s) :
    s ≠ "" ∧ s.data.all Char.isDigit = true := by
  unfold taxTryAt at h
  split at h
  · next s' heq =>
      have := Option.some.inj h
      subst this
      exact taxBranch_digits heq
  · next =>
      split at h
      · next s' heq =>
          have := Option.some.inj h
          subst this
          exact taxBranch_digits heq
      · next => exact taxBranch_digits h

/-- Helper: a successful `taxSearch` captures a non-empty digit string. -/
theorem taxSearch_digits {l : List Char} {s : String} (h : taxSearch l = some s) :
    s ≠ "" ∧ s.data.all Char.isDigit = true := by
  induction l with
  | nil => cases h
  | cons c rest ih =>
      unfold taxSearch at h
      split at h
      · next s' heq =>
          have := Option.some.inj h
          subst this
          exact taxTryAt_digits heq
      · next => exact ih h

/-- Helper: every record produced by `rowToRecord` has a non-empty all-digit
tax id. -/
theorem rowToRecord_digits {row : Row} {r : TaxRecord}
    (h : rowToRecord row = some r) :
    r.mst ≠ "" ∧ r.mst.data.all Char.isDigit = true := by
  unfold rowToRecord at h
  split at h
  · next c0 c1 c2 c3 rest =>
      split at h
      · exact absurd h (by simp)
      · next mst heq =>
          have := Option.some.inj h
          subst this
          exact taxSearch_digits heq
  · exact absurd h (by simp)

/-- C5: every record extracted from any document has a taxId that is a
non-empty string of digits, and a row with at least four cells whose name
cell has no parseable tax-id token is dropped entirely. -/
theorem extract_key_invariant :
    (∀ (doc : HtmlDoc) (r : TaxRecord), r ∈ extract_tax_records doc →
      r.mst ≠ "" ∧ r.mst.data.all Char.isDigit = true) ∧
    (∀ (b : Bool) (c0 c1 c2 c3 : Cell) (rest : List Cell),
      taxSearch c1.text.data = none →
      rowToRecord ⟨b, c0 :: c1 :: c2 :: c3 :: rest⟩ = none) := by
  constructor
  · intro doc r hr
    unfold extract_tax_records at hr
    split at hr
    · simp at hr
    · next t heq =>
        rw [List.mem_filterMap] at hr
        obtain ⟨row, _, hrow⟩ := hr
        exact rowToRecord_digits hrow
  · intro b c0 c1 c2 c3 rest h
    simp [rowToRecord, h]

/-- Witness for C5: the record extracted from the good row of the concrete
document has a non-empty digit key, and the bad row is dropped. -/
theorem extract_key_invariant_witness :
    ("11" ≠ "" ∧ ("11" : String).data.all Char.isDigit = true) ∧
    rowToRecord c5rowBad = none :=
  ⟨extract_key_invariant.1 c5doc
      { stt := "1", ten_to_chuc := "Alpha", mst := "11", dia_chi := "Addr",
        trang_thong_tin := "t" } (by decide),
   extract_key_invariant.2 false ⟨"2", none⟩ ⟨"Beta has no id", none⟩
      ⟨"Addr", none⟩ ⟨"t", none⟩ [] (by decide)⟩

/-- Helper: `storeSet` on a cons rewrites the head if its key matches and
recurses on the tail. -/
theorem storeSet_cons (k' : String) (v' : TaxRecord) (rest : Store)
    (k : String) (v : TaxRecord) :
    storeSet ((k', v') :: rest) k v =
      (if k' = k then (k, v) else (k', v')) :: storeSet rest k v := rfl

/-- Helper: a key found in the left part is found in the concatenation. -/
theorem storeFind_append_left {st : Store} {k : String} {v : TaxRecord}
    (h : storeFind st k = some v) (l : Store) :
    storeFind (st ++ l) k = some v := by
  induction st with
  | nil => cases h
  | cons p rest ih =>
      cases p with
      | mk k' v' =>
          simp only [List.cons_append, storeFind] at h ⊢
          by_cases hk : k' = k
          · rwa [if_pos hk] at h ⊢
          · rw [if_neg hk] at h ⊢
            exact ih h

/-- Helper: a key absent from the left part is looked up in the right part
of a concatenation. -/
theorem storeFind_append_right {st : Store} {k : String}
    (h : storeFind st k = none) (l : Store) :
    storeFind (st ++ l) k = storeFind l k := by
  induction st with
  | nil => rfl
  | cons p rest ih =>
      cases p with
      | mk k' v' =>
          simp only [List.cons_append, storeFind] at h ⊢
          by_cases hk : k' = k
          · rw [if_pos hk] at h; cases h
          · rw [if_neg hk] at h ⊢
            exact ih h

/-- Helper: rewriting a present key makes lookup return the new value. -/
theorem storeFind_set_self {st : Store} {k : String} {r : TaxRecord}
    (h : storeFind st k = some r) (v : TaxRecord) :
    storeFind (storeSet st k v) k = some v := by
  induction st with
  | nil => cases h
  | cons p rest ih =>
      cases p with
      | mk k' v' =>
          rw [storeSet_cons]
          simp only [storeFind] at h
          by_cases hk : k' = k
          · rw [if_pos hk]
            simp [storeFind]
          · rw [if_neg hk]
            simp only [storeFind]
            rw [if_neg hk]
            rw [if_neg hk] at h
            exact ih h

/-- Helper: rewriting one key leaves lookups of other keys unchanged. -/
theorem storeFind_set_ne {st : Store} {k q : String} (h : k ≠ q)
    (v : TaxRecord) :
    storeFind (storeSet st k v) q = storeFind st q := by
  induction st with
  | nil => rfl
  | cons p rest ih =>
      cases p with
      | mk k' v' =>
          rw [storeSet_cons]
          by_cases hk : k' = k
          · subst hk
            rw [if_pos rfl]
            simp only [storeFind]
            rw [if_neg h, if_neg h]
            exact ih
          · rw [if_neg hk]
            simp only [storeFind]
            by_cases hq : k' = q
            · rw [if_pos hq, if_pos hq]
            · rw [if_neg hq, if_neg hq]
              exact ih

/-- Helper: an absent incoming key appends the record with one new count. -/
theorem upsertStep_new {st : Store} {s : SyncStats} {i : TaxRecord}
    (h : storeFind st i.mst = none) :
    upsertStep (st, s) i =
      (st ++ [(i.mst, i)], { s with newCount := s.newCount + 1 }) := by
  simp [upsertStep, h]

/-- Helper: an identical present record leaves the store alone with one
unchanged count. -/
theorem upsertStep_unchanged {st : Store} {s : SyncStats} {i : TaxRecord}
    (h : storeFind st i.mst = some i) :
    upsertStep (st, s) i =
      (st, { s with unchangedCount := s.unchangedCount + 1 }) := by
  simp [upsertStep, h]

/-- Helper: a differing present record is rewritten with one update count. -/
theorem upsertStep_update {st : Store} {s : SyncStats} {i r : TaxRecord}
    (h : storeFind st i.mst = some r) (hne : r ≠ i) :
    upsertStep (st, s) i =
      (storeSet st i.mst i, { s with updateCount := s.updateCount + 1 }) := by
  simp [upsertStep, h, hne]

/-- Helper: folding records none of which rebinds key `k` to a different
value preserves the binding of `k`. -/
theorem storeFind_foldl_frozen (items : List TaxRecord) :
    ∀ (st : Store) (s : SyncStats) (k : String) (v : TaxRecord),
      storeFind st k = some v → (∀ x ∈ items, x.mst = k → x = v) →
      storeFind (items.foldl upsertStep (st, s)).1 k = some v := by
  induction items with
  | nil =>
      intro st s k v h _
      simpa using h
  | cons i rest ih =>
      intro st s k v h hco
      rw [List.foldl_cons]
      cases hfi : storeFind st i.mst with
      | none =>
          rw [upsertStep_new hfi]
          exact ih _ _ _ _ (storeFind_append_left h _)
            (fun x hx hxk => hco x (List.mem_cons_of_mem _ hx) hxk)
      | some r =>
          by_cases hri : r = i
          · subst hri
            rw [upsertStep_unchanged hfi]
            exact ih _ _ _ _ h
              (fun x hx hxk => hco x (List.mem_cons_of_mem _ hx) hxk)
          · rw [upsertStep_update hfi hri]
            by_cases hik : i.mst = k
            · exfalso
              have hiv : i = v := hco i (List.mem_cons_self _ _) hik
              rw [hik] at hfi
              rw [hfi] at h
              exact hri ((Option.some.inj h).trans hiv.symm)
            · refine ih _ _ _ _ ?_
                (fun x hx hxk => hco x (List.mem_cons_of_mem _ hx) hxk)
              rw [storeFind_set_ne hik]
              exact h

/-- Helper: after merging a coherent record list, every merged record is
found in the resulting store under its own key. -/
theorem storeFind_foldl_mem (items : List TaxRecord) :
    ∀ (st : Store) (s : SyncStats),
      (∀ x ∈ items, ∀ y ∈ items, x.mst = y.mst → x = y) →
      ∀ r ∈ items, storeFind (items.foldl upsertStep (st, s)).1 r.mst = some r := by
  induction items with
  | nil =>
      intro st s _ r hr
      exact absurd hr (List.not_mem_nil r)
  | cons i rest ih =>
      intro st s hco r hr
      rw [List.foldl_cons]
      have hstep : ∃ st' s', upsertStep (st, s) i = (st', s') ∧
          storeFind st' i.mst = some i := by
        cases hfi : storeFind st i.mst with
        | none =>
            refine ⟨_, _, upsertStep_new hfi, ?_⟩
            rw [storeFind_append_right hfi]
            simp [storeFind]
        | some r' =>
            by_cases hri : r' = i
            · subst hri
              exact ⟨_, _, upsertStep_unchanged hfi, hfi⟩
            · exact ⟨_, _, upsertStep_update hfi hri, storeFind_set_self hfi i⟩
      obtain ⟨st', s', heq, hfind⟩ := hstep
      rw [heq]
      rcases List.mem_cons.mp hr with hri | hrr
      · subst hri
        exact storeFind_foldl_frozen rest st' s' r.mst r hfind
          (fun x hx hxk =>
            hco x (List.mem_cons_of_mem _ hx) r (List.mem_cons_self _ _) hxk)
      · exact ih st' s'
          (fun x hx y hy =>
            hco x (List.mem_cons_of_mem _ hx) y (List.mem_cons_of_mem _ hy))
          r hrr

/-- Helper: merging records that are all already present identically leaves
the store untouched and counts them all as unchanged. -/
theorem foldl_unchanged (items : List TaxRecord) :
    ∀ (st : Store) (s : SyncStats),
      (∀ r ∈ items, storeFind st r.mst = some r) →
      items.foldl upsertStep (st, s) =
        (st, ⟨s.newCount, s.updateCount, s.unchangedCount + items.length⟩) := by
  induction items with
  | nil =>
      intro st s _
      cases s with
      | mk a b c => simp
  | cons i rest ih =>
      intro st s h
      rw [List.foldl_cons, upsertStep_unchanged (h i (List.mem_cons_self _ _)),
        ih st _ (fun r hr => h r (List.mem_cons_of_mem _ hr))]
      cases s with
      | mk a b c =>
          simp only [List.length_cons]
          have hc : c + 1 + rest.length = c + (rest.length + 1) := by omega
          rw [hc]

/-- C3 (amended): merging a record set whose records never share a taxId
with differing fields is idempotent — the second pass leaves the store
unchanged and reports every record as unchanged. -/
theorem upsert_idempotent (st : Store) (items : List TaxRecord)
    (hco : ∀ x ∈ items, ∀ y ∈ items, x.mst = y.mst → x = y) :
    upsert_records (upsert_records st items).1 items =
      ((upsert_records st items).1, ⟨0, 0, items.length⟩) := by
  have hmem := storeFind_foldl_mem items st ⟨0, 0, 0⟩ hco
  unfold upsert_records at hmem ⊢
  rw [foldl_unchanged items _ _ hmem]
  simp

/-- Counterexample to C3 as stated: an extraction containing two records
with the same taxId "7" but different addresses makes the second merge pass
report 0 unchanged instead of 2. -/
theorem upsert_idempotent_counterexample :
    (upsert_records (upsert_records [] [c3r1, c3r2]).1
        [c3r1, c3r2]).2.unchangedCount = 0 ∧
    [c3r1, c3r2].length = 2 := by decide

/-- Witness for C3 (amended): two records with distinct taxIds merged twice
give an unchanged second pass counting both. -/
theorem upsert_idempotent_witness :
    upsert_records (upsert_records [] [c3s1, c3s2]).1 [c3s1, c3s2] =
      ((upsert_records [] [c3s1, c3s2]).1, ⟨0, 0, 2⟩) :=
  upsert_idempotent [] [c3s1, c3s2] (by decide)

/-- Helper: lookup fails exactly on keys outside the store's key list. -/
theorem storeFind_none_iff (st : Store) (k : String) :
    storeFind st k = none ↔ k ∉ st.map Prod.fst := by
  induction st with
  | nil => simp [storeFind]
  | cons p rest ih =>
      cases p with
      | mk k' v' =>
          simp only [storeFind, List.map_cons, List.mem_cons]
          by_cases hk : k' = k
          · simp [hk]
          · rw [if_neg hk, ih]
            constructor
            · intro h hor
              rcases hor with h1 | h2
              · exact hk h1.symm
              · exact h h2
            · intro h h2
              exact h (Or.inr h2)

/-- Helper: rewriting a key's value preserves the store's key list. -/
theorem keys_storeSet (st : Store) (k : String) (v : TaxRecord) :
    (storeSet st k v).map Prod.fst = st.map Prod.fst := by
  induction st with
  | nil => rfl
  | cons p rest ih =>
      cases p with
      | mk k' v' =>
          rw [storeSet_cons]
          by_cases hk : k' = k
          · simp [hk, ih]
          · simp [hk, ih]

/-- Helper: one merge step can only grow the key list, preserves key
uniqueness, and preserves the invariant that each entry is keyed by its
record's taxId. -/
theorem upsertStep_invariants (st : Store) (s : SyncStats) (i : TaxRecord) :
    (∀ k ∈ st.map Prod.fst, k ∈ (upsertStep (st, s) i).1.map Prod.fst) ∧
    ((st.map Prod.fst).Nodup → ((upsertStep (st, s) i).1.map Prod.fst).Nodup) ∧
    ((∀ p ∈ st, p.1 = p.2.mst) →
      ∀ p ∈ (upsertStep (st, s) i).1, p.1 = p.2.mst) := by
  cases hfi : storeFind st i.mst with
  | none =>
      simp only [upsertStep_new hfi]
      refine ⟨?_, ?_, ?_⟩
      · intro k hk
        rw [List.map_append]
        exact List.mem_append_left _ hk
      · intro hnd
        rw [List.map_append, List.nodup_append]
        have hni : i.mst ∉ st.map Prod.fst := (storeFind_none_iff st i.mst).mp hfi
        refine ⟨hnd, List.nodup_singleton _, ?_⟩
        intro a ha hb
        simp at hb
        subst hb
        exact hni ha
      · intro hkey p hp
        rcases List.mem_append.mp hp with h1 | h2
        · exact hkey p h1
        · simp at h2
          subst h2
          rfl
  | some r =>
      by_cases hri : r = i
      · subst hri
        simp only [upsertStep_unchanged hfi]
        exact ⟨fun k hk => hk, id, fun h => h⟩
      · simp only [upsertStep_update hfi hri]
        refine ⟨?_, ?_, ?_⟩
        · intro k hk
          rwa [keys_storeSet]
        · intro hnd
          rwa [keys_storeSet]
        · intro hkey p hp
          obtain ⟨q, hq, hfq⟩ := List.mem_map.mp hp
          by_cases hqk : q.1 = i.mst
          · rw [← hfq]
            simp [hqk]
          · rw [← hfq]
            simp only [hqk, if_false]
            exact hkey q hq

/-- Helper: the merge fold can only grow the key list, preserves key
uniqueness, and preserves per-entry key coherence. -/
theorem upsert_fold_invariants (items : List TaxRecord) :
    ∀ (st : Store) (s : SyncStats),
      (∀ k ∈ st.map Prod.fst,
        k ∈ (items.foldl upsertStep (st, s)).1.map Prod.fst) ∧
      ((st.map Prod.fst).Nodup →
        ((items.foldl upsertStep (st, s)).1.map Prod.fst).Nodup) ∧
      ((∀ p ∈ st, p.1 = p.2.mst) →
        ∀ p ∈ (items.foldl upsertStep (st, s)).1, p.1 = p.2.mst) := by
  induction items with
  | nil =>
      intro st s
      exact ⟨fun k hk => hk, id, fun h => h⟩
  | cons i rest ih =>
      intro st s
      rw [List.foldl_cons]
      obtain ⟨s1, s2, s3⟩ := upsertStep_invariants st s i
      have hpair : upsertStep (st, s) i =
          ((upsertStep (st, s) i).1, (upsertStep (st, s) i).2) := rfl
      rw [hpair]
      obtain ⟨i1, i2, i3⟩ := ih (upsertStep (st, s) i).1 (upsertStep (st, s) i).2
      exact ⟨fun k hk => i1 k (s1 k hk), fun hnd => i2 (s2 hnd),
        fun hkey => i3 (s3 hkey)⟩

/-- C8: the merge never deletes — every taxId keyed in the existing store is
still keyed in the merged store — and, because each entry stays keyed by its
record's taxId and keys stay unique, the merged result holds at most one
record per taxId even when the incoming sequence repeats taxIds. -/
theorem upsert_no_deletion (st : Store) (items : List TaxRecord)
    (hnd : (st.map Prod.fst).Nodup) (hkey : ∀ p ∈ st, p.1 = p.2.mst) :
    (∀ k ∈ st.map Prod.fst, k ∈ (upsert_records st items).1.map Prod.fst) ∧
    ((upsert_records st items).1.map (fun p => p.2.mst)).Nodup := by
  obtain ⟨h1, h2, h3⟩ := upsert_fold_invariants items st ⟨0, 0, 0⟩
  refine ⟨h1, ?_⟩
  have hmaps : (upsert_records st items).1.map (fun p => p.2.mst) =
      (upsert_records st items).1.map Prod.fst := by
    apply List.map_congr_left
    intro p hp
    exact (h3 hkey p hp).symm
  rw [hmaps]
  exact h2 hnd

/-- Witness for C8: the store-only key "5" survives a merge of two incoming
records that share taxId "6", and the merged result keys are unique. -/
theorem upsert_no_deletion_witness :
    "5" ∈ (upsert_records c8store [c8i1, c8i2]).1.map Prod.fst ∧
    ((upsert_records c8store [c8i1, c8i2]).1.map (fun p => p.2.mst)).Nodup :=
  ⟨(upsert_no_deletion c8store [c8i1, c8i2] (by decide) (by decide)).1 "5"
      (by decide),
   (upsert_no_deletion c8store [c8i1, c8i2] (by decide) (by decide)).2⟩
